import Mathlib

/-!
A shallow embedding of `cubing_in_pandas.py` (the `cubinggroupby` driver and
its four pure helpers), together with proofs about the claims of the
specification.

Modelling conventions:
* A pandas cell value is `Val`: the null marker (`NaN`/`None`), a string, or
  an integer.  Dtypes are not modelled: the two dtype-coercion branches of
  the source (`pd.to_numeric` on an all-null integer column, `astype` back to
  the original dtype) change the runtime representation of a filled column
  but not its semantic value, so both are the identity here.
* A `DataFrame` is a column-name list plus rows as association lists; the
  optional row index produced by `set_index` is the `index` field (the
  indexed columns stay inside each row, as they stay inside a pandas index).
* Python's `set` iteration order is not deterministic.  The order of
  `list(set(df.columns) - set(all_groupby_cols))` (source line 118) is
  therefore an explicit parameter `valueOrder` of the driver, constrained in
  theorems to be an enumeration of that set difference.  The per-grouping-set
  difference `list(set(all_groupby_cols) - set(groupby_cols))` (line 139)
  only chooses the order in which distinct folded columns receive their
  constant fill, which cannot affect the outcome, so it is modelled by a
  canonical enumeration `pySetDiff`.
* Aggregation reductions ('mean', `pd.Series.nunique`, ...) are opaque: an
  environment `AggEnv` maps a reduction name to a function from the list of
  a column's values to a value.
* `pandas.groupby` drops rows whose key contains the null marker (the
  `dropna=True` default) and sorts the groups by key; both are modelled.
* Exceptions (`raise ValueError`) are modelled by `Except String`.
-/

namespace CubingInPandas

/-- A pandas cell value: the null marker (None / NaN), a string, or an
integer. -/
inductive Val where
| null : Val
| str (s : String) : Val
| int (z : Int) : Val
deriving DecidableEq, Repr

/-- A row, as an association list from column name to value. -/
abbrev Row := List (String × Val)

/-- Read a cell of a row; absent columns read as the null marker. -/
def getVal (r : Row) (c : String) : Val :=
(r.lookup c).getD .null

/-- A pandas DataFrame: named columns, rows, and the (possibly empty) list of
columns currently promoted to the row index by `set_index`. -/
structure DataFrame where
cols : List String
rows : List Row
index : List String := []
deriving DecidableEq, Repr

/-- All values of one column, top to bottom. -/
def colVals (df : DataFrame) (c : String) : List Val :=
df.rows.map (fun r => getVal r c)

/-- A value passed for one of the three column-specification parameters of
`cubinggroupby`: Python's `None`, a single string name, a list of names,
or some other object (a tuple of names, or a non-sequence). -/
inductive ColsArg where
| pynone : ColsArg
| str (s : String) : ColsArg
| list (l : List String) : ColsArg
| tuple (l : List String) : ColsArg
| other (v : Val) : ColsArg
deriving DecidableEq, Repr

/-- Source `_cols_normalize` (lines 15-20): `None` becomes the empty list, a
single string becomes a one-element list, and anything else is returned
unchanged. -/
def cols_normalize : ColsArg → ColsArg
| .pynone => .list []
| .str s => .list [s]
| x => x

/-- The elements a column-specification argument stands for, used where the
source iterates or concatenates the normalized value.  A `.list` or
`.tuple` yields its names; `.pynone` and `.str` never reach this point
un-normalized in the driver; `.other` has no elements (in Python such a
value makes the engine raise later, outside this model). -/
def ColsArg.elems : ColsArg → List String
| .pynone => []
| .str s => [s]
| .list l => l
| .tuple l => l
| .other _ => []

/-- Source `_check_no_interleaving_cols` (lines 23-34): normalize the three
specifications, form the three sets, and compare the size of their union
with the sum of their sizes. -/
def check_no_interleaving_cols (normal_cols cube_cols rollup_cols : ColsArg) : Bool :=
let a := ((cols_normalize normal_cols).elems).toFinset
let b := ((cols_normalize cube_cols).elems).toFinset
let c := ((cols_normalize rollup_cols).elems).toFinset
(a ∪ b ∪ c).card == a.card + b.card + c.card

/-- `itertools.combinations x k`: all `k`-element subsequences of `x`, in the
lexicographic order of their index tuples (the order `itertools` yields). -/
def combinations {α : Type} : Nat → List α → List (List α)
| 0, _ => [[]]
| _ + 1, [] => []
| k + 1, x :: xs => (combinations k xs).map (fun c => x :: c) ++ combinations (k + 1) xs

/-- Source `_get_cube_combinations` (lines 37-42): all subsets of `x`, sizes
`0` to `length x`, each size block in `itertools.combinations` order. -/
def get_cube_combinations {α : Type} (x : List α) : List (List α) :=
((List.range (x.length + 1)).map (fun k => combinations k x)).flatten

/-- Source `_get_rollup_combinations` (lines 45-50): the initial segments
`x[:i]` for `i = 0, ..., length x`. -/
def get_rollup_combinations {α : Type} (x : List α) : List (List α) :=
(List.range (x.length + 1)).map (fun i => x.take i)

/-- The `fill_grouping` argument: Python's `None`, a dict from column name to
value, or any non-dict value (one on which `.get` raises). -/
inductive FillSpec where
| fnone : FillSpec
| dict (m : List (String × Val)) : FillSpec
| scalar (v : Val) : FillSpec
deriving DecidableEq, Repr

/-- Source `_get_grouping_filling` (lines 53-59): `None` yields the null
marker; a dict yields `filling.get(col_name, None)`; on any other value
the `.get` call raises, the bare `except` catches, and the value itself is
returned. -/
def get_grouping_filling (col_name : String) (filling : FillSpec) : Val :=
match filling with
| .fnone => .null
| .dict m => (m.lookup col_name).getD .null
| .scalar v => v

/-- The `agg` argument: a single reduction name (a Python `str`), a dict from
column name to reduction name, or anything else (including the default
`None`). -/
inductive AggSpec where
| name (f : String) : AggSpec
| dict (m : List (String × String)) : AggSpec
| invalid : AggSpec
deriving DecidableEq, Repr

/-- Semantics of reduction names: a reduction maps the list of a column's
values to one value. -/
abbrev AggEnv := String → List Val → Val

/-- Canonical enumeration of `list(set(a) - set(b))`: the members of `a` not
in `b`, one occurrence each. -/
def pySetDiff (a b : List String) : List String :=
(a.filter (fun c => !(b.contains c))).dedup

/-- Source lines 161-170: the dtype coercion of a freshly filled folded
column (`pd.to_numeric` when the original dtype is integral and the fill
is the null marker, `astype` to the original dtype otherwise).  Values
carry no dtype in this model, so both branches preserve every cell. -/
def coerceFilled (v : Val) : Val := v

/-- Lexicographic comparison of character lists by code point (how Python
compares the strings the engine sorts). -/
def charsLe : List Char → List Char → Bool
| [], _ => true
| _ :: _, [] => false
| c :: cs, d :: ds => if c.toNat = d.toNat then charsLe cs ds else c.toNat ≤ d.toNat

/-- Code-point lexicographic string comparison. -/
def strLe (a b : String) : Bool :=
charsLe a.data b.data

/-- The comparison `sort_values` uses on cells, ascending with the null
marker (NaN) last; the cross-kind case fixes integers before strings. -/
def valLe : Val → Val → Bool
| .null, .null => true
| .null, _ => false
| _, .null => true
| .int a, .int b => a ≤ b
| .int _, .str _ => true
| .str _, .int _ => false
| .str a, .str b => strLe a b

/-- Lexicographic comparison of two key tuples under `valLe`. -/
def keyLe : List Val → List Val → Bool
| [], _ => true
| _ :: _, [] => false
| a :: as, b :: bs => if a = b then keyLe as bs else valLe a b

/-- The key of a row for a list of group columns. -/
def rowKey (gcols : List String) (r : Row) : List Val :=
gcols.map (fun c => getVal r c)

/-- Sort rows ascending by the key built from `by_` (the engine's
`sort_values(by_)`; `sort_index` after `set_index(by_)` sorts by the same
key). -/
def sortValues (df : DataFrame) (by_ : List String) : DataFrame :=
{ df with rows := (List.insertionSort
    (fun r1 r2 => keyLe (rowKey by_ r1) (rowKey by_ r2) = true) df.rows) }

/-- Engine `df.agg(aggm).to_frame().T`: one row holding, for each entry
`(c, f)` of the aggregation dict, the reduction `f` of the whole column
`c`; the columns are the dict's keys. -/
def dfAgg (df : DataFrame) (aggm : List (String × String)) (env : AggEnv) : DataFrame :=
{ cols := aggm.map Prod.fst,
  rows := [aggm.map (fun p => (p.1, env p.2 (colVals df p.1)))] }

/-- Engine `df.groupby(gcols, as_index=False).agg(aggm)`: rows whose key
contains the null marker are dropped (`dropna=True` default), the
distinct keys are listed and sorted (`sort=True` default), and each group
yields one row: the key columns followed by the reduced value columns. -/
def groupbyAgg (df : DataFrame) (gcols : List String) (aggm : List (String × String))
(env : AggEnv) : DataFrame :=
let kept := df.rows.filter (fun r => !((rowKey gcols r).contains Val.null))
let keys := List.insertionSort (fun k1 k2 => keyLe k1 k2 = true)
    ((kept.map (rowKey gcols)).dedup)
{ cols := gcols ++ aggm.map Prod.fst,
  rows := keys.map (fun k =>
    let grp := kept.filter (fun r => rowKey gcols r == k)
    gcols.zip k ++ aggm.map (fun p => (p.1, env p.2 (grp.map (fun r => getVal r p.1))))) }

/-- Overwrite column `c` of a row with `v`, or append it when absent (the
engine's column assignment). -/
def setValRow (r : Row) (c : String) (v : Val) : Row :=
if (r.lookup c).isSome then
  r.map (fun p => if p.1 = c then (p.1, v) else p)
else r ++ [(c, v)]

/-- Engine `df[c] = v`: set column `c` to the constant `v` in every row. -/
def setCol (df : DataFrame) (c : String) (v : Val) : DataFrame :=
{ cols := if df.cols.contains c then df.cols else df.cols ++ [c],
  rows := df.rows.map (fun r => setValRow r c v),
  index := df.index }

/-- Engine `df[cs]`: select the columns `cs`, in that order. -/
def selectCols (df : DataFrame) (cs : List String) : DataFrame :=
{ cols := cs,
  rows := df.rows.map (fun r => cs.map (fun c => (c, getVal r c))),
  index := df.index }

/-- Engine `pd.concat(dfs, ignore_index=True)`: the columns in order of
first appearance and the rows of every piece in order.  (In the driver
every piece has exactly the `result_cols` columns, so no alignment filling
arises.) -/
def concatRows (dfs : List DataFrame) : DataFrame :=
{ cols := dfs.foldl (fun acc d => acc ++ d.cols.filter (fun c => !(acc.contains c))) [],
  rows := (dfs.map DataFrame.rows).flatten }

/-- Engine `df.set_index(cs)`: the columns `cs` leave the column list and
become the row index (each row keeps their values). -/
def setIndex (df : DataFrame) (cs : List String) : DataFrame :=
{ cols := df.cols.filter (fun c => !(cs.contains c)),
  rows := df.rows,
  index := cs }

/-- Source lines 117-125: resolve the `agg` argument into the value-column
list and the aggregation dict.  For a single reduction name the value
columns are `list(set(df.columns) - set(all_groupby_cols))` whose
iteration order is the explicit parameter `valueOrder`; for a dict they
are its keys; anything else raises `ValueError`. -/
def resolveAgg (agg : AggSpec) (valueOrder : List String) :
Except String (List String × List (String × String)) :=
match agg with
| .name f => .ok (valueOrder, valueOrder.map (fun c => (c, f)))
| .dict m => .ok (m.map Prod.fst, m)
| .invalid => .error "the agg parameter should be only str or dict"

/-- Source lines 130-138: the grouping sets, one per pair of a cube subset
(outer loop) and a rollup initial segment (inner loop), each being
`normal_cols ++ cube subset ++ rollup initial segment`. -/
def groupingSets (normal_cols cube_cols rollup_cols : List String) : List (List String) :=
((get_cube_combinations cube_cols).map (fun cc =>
  (get_rollup_combinations rollup_cols).map (fun rc =>
    normal_cols ++ cc ++ rc))).flatten

/-- Source lines 139-174, the body of the double loop for one grouping set:
aggregate (whole-table when the set is empty, group-by otherwise), give
every folded grouping column its constant fill (then dtype-coerce it,
`coerceFilled`, the identity on values), and select `result_cols`. -/
def pieceFor (df : DataFrame) (all_groupby_cols : List String)
(aggm : List (String × String)) (env : AggEnv) (fill_grouping : FillSpec)
(result_cols : List String) (gset : List String) : DataFrame :=
let remaining_cols := pySetDiff all_groupby_cols gset
let base := if gset = [] then dfAgg df aggm env else groupbyAgg df gset aggm env
let filled := remaining_cols.foldl
  (fun acc c => setCol acc c (coerceFilled (get_grouping_filling c fill_grouping))) base
selectCols filled result_cols

/-- Source lines 128-186 (after validation and agg resolution succeed): build
one piece per grouping set, union them, sort by the full grouping-column
list, and optionally promote the grouping columns to the row index.  The
second component counts the engine aggregation calls (one per grouping
set). -/
def runCubing (df : DataFrame) (normal_cols cube_cols rollup_cols value_cols : List String)
(aggm : List (String × String)) (fill_grouping : FillSpec) (as_index : Bool)
(env : AggEnv) : DataFrame × Nat :=
let all_groupby_cols := normal_cols ++ cube_cols ++ rollup_cols
let result_cols := all_groupby_cols ++ value_cols
let gsets := groupingSets normal_cols cube_cols rollup_cols
let pieces := gsets.map (pieceFor df all_groupby_cols aggm env fill_grouping result_cols)
let unioned := sortValues (concatRows pieces) all_groupby_cols
let final := if as_index then sortValues (setIndex unioned all_groupby_cols) all_groupby_cols
  else unioned
(final, pieces.length)

/-- Source `cubinggroupby` (lines 62-186), instrumented: the result (or the
`ValueError` message), paired with the number of engine aggregation calls
made (`0` when validation fails). -/
def cubinggroupbyAux (df : DataFrame) (normal cube rollup : ColsArg) (agg : AggSpec)
(fill_grouping : FillSpec) (as_index : Bool) (env : AggEnv) (valueOrder : List String) :
Except String DataFrame × Nat :=
let normal_cols := (cols_normalize normal).elems
let cube_cols := (cols_normalize cube).elems
let rollup_cols := (cols_normalize rollup).elems
if check_no_interleaving_cols (.list normal_cols) (.list cube_cols) (.list rollup_cols) then
  match resolveAgg agg valueOrder with
  | .error e => (.error e, 0)
  | .ok (value_cols, aggm) =>
    let p := runCubing df normal_cols cube_cols rollup_cols value_cols aggm fill_grouping
      as_index env
    (.ok p.1, p.2)
else (.error "the columns to be grouped by should be different", 0)

/-- Source `cubinggroupby`: the returned DataFrame or the raised error. -/
def cubinggroupby (df : DataFrame) (normal cube rollup : ColsArg) (agg : AggSpec)
(fill_grouping : FillSpec) (as_index : Bool) (env : AggEnv) (valueOrder : List String) :
Except String DataFrame :=
(cubinggroupbyAux df normal cube rollup agg fill_grouping as_index env valueOrder).1

/-- The constraint the driver's theorems place on the `valueOrder` parameter:
it enumerates `set(df.columns) - set(all_groupby_cols)` in some order. -/
abbrev ValidValueOrder (df : DataFrame) (all_groupby_cols : List String)
(vo : List String) : Prop :=
vo.Perm (pySetDiff df.cols all_groupby_cols)

/-- Does a `ColsArg` have one of the three shapes the spec describes for a
column specification (absent, a single name, a list of names)? -/
def ColsArg.isSpecShape : ColsArg → Bool
| .pynone => true
| .str _ => true
| .list _ => true
| .tuple _ => false
| .other _ => false

/-! ### Fixtures reused by concrete witnesses and counterexamples -/

/-- A table with a null in the grouping column `a`. -/
def dfNull : DataFrame :=
{ cols := ["a", "v"],
  rows := [[("a", .str "x"), ("v", .int 1)], [("a", .str "y"), ("v", .int 2)],
           [("a", .null), ("v", .int 4)]] }

/-- A one-row table with one grouping column and two value columns. -/
def dfPQ : DataFrame :=
{ cols := ["a", "p", "q"],
  rows := [[("a", .str "x"), ("p", .int 1), ("q", .int 2)]] }

/-- A concrete reduction environment: `sum` adds the integer cells, anything
else counts the cells. -/
def envSum : AggEnv := fun f vs =>
match f with
| "sum" => .int (vs.foldl (fun acc v => match v with | .int z => acc + z | _ => acc) 0)
| _ => .int vs.length

/-- The number of groups the engine's group-by produces for one grouping
set: distinct keys among the rows whose key has no null cell. -/
def distinctKeyCount (df : DataFrame) (gset : List String) : Nat :=
((df.rows.filter (fun r => !((rowKey gset r).contains Val.null))).map (rowKey gset)).dedup.length

/-- Rows one grouping set contributes to the final table under the model's
engine: one row for the empty set, otherwise one per distinct null-free
key. -/
def modelSetCount (df : DataFrame) (gset : List String) : Nat :=
if gset = [] then 1 else distinctKeyCount df gset

/-- Modelled from the claim's words, for comparison: "the number of distinct
combinations of that set's columns in the input table, counting 1 for
the empty grouping set" — with no exclusion of null-valued keys. -/
def claimedSetCount (df : DataFrame) (gset : List String) : Nat :=
if gset = [] then 1 else ((df.rows.map (rowKey gset)).dedup).length

/-! ### C6: the fill-value resolver -/

/-- C6: the fill-value resolver is total and never raises: an absent
specification yields the null marker; a mapping yields the mapped value
when the column is present and the null marker otherwise; any non-mapping
value (one on which the lookup fails) is returned unchanged for every
column name. -/
theorem get_grouping_filling_total (c : String) (m : List (String × Val)) (v w : Val) :
get_grouping_filling c .fnone = .null
∧ (m.lookup c = some w → get_grouping_filling c (.dict m) = w)
∧ (m.lookup c = none → get_grouping_filling c (.dict m) = .null)
∧ get_grouping_filling c (.scalar v) = v := by
refine ⟨rfl, fun h => ?_, fun h => ?_, rfl⟩ <;> simp [get_grouping_filling, h]

/-- Witness for C6: both dict branches at concrete inputs. -/
theorem get_grouping_filling_total_witness :
get_grouping_filling "a" (.dict [("a", .int 3)]) = .int 3
∧ get_grouping_filling "b" (.dict [("a", .int 3)]) = .null :=
⟨(get_grouping_filling_total "a" [("a", .int 3)] .null (.int 3)).2.1 (by decide),
 (get_grouping_filling_total "b" [("a", .int 3)] .null .null).2.2.1 (by decide)⟩

/-! ### C10: the column-spec normalizer -/

/-- C10: the normalizer wraps a single string into a one-element list, turns
`None` into the empty list, and is the identity on every other argument
(including non-list values such as a tuple), never raising; its output is
therefore not guaranteed to be a list. -/
theorem cols_normalize_id_on_rest :
cols_normalize .pynone = .list []
∧ (∀ s, cols_normalize (.str s) = .list [s])
∧ (∀ a : ColsArg, a ≠ .pynone → (∀ s, a ≠ .str s) → cols_normalize a = a) := by
refine ⟨rfl, fun s => rfl, fun a h1 h2 => ?_⟩
cases a with
| pynone => exact absurd rfl h1
| str s => exact absurd rfl (h2 s)
| list l => rfl
| tuple l => rfl
| other v => rfl

/-- Witness for C10: a tuple argument is returned unchanged (and is not a
list). -/
theorem cols_normalize_id_on_rest_witness :
cols_normalize (.tuple ["x", "y"]) = .tuple ["x", "y"] :=
cols_normalize_id_on_rest.2.2 (.tuple ["x", "y"]) (by decide)
  (fun s h => ColsArg.noConfusion h)

/-! ### C9: the rollup generator -/

/-- The rollup generator has `n + 1` entries. -/
lemma length_get_rollup_combinations {α : Type} (x : List α) :
(get_rollup_combinations x).length = x.length + 1 := by
simp [get_rollup_combinations]

lemma getElem?_get_rollup_combinations {α : Type} (x : List α) (k : Nat) :
(get_rollup_combinations x)[k]? =
  if k < x.length + 1 then some (x.take k) else none := by
unfold get_rollup_combinations
rw [List.getElem?_map]
by_cases h : k < x.length + 1
· rw [List.getElem?_range h, if_pos h]
  rfl
· rw [if_neg h, List.getElem?_eq_none, Option.map_none']
  simpa [List.length_range] using Nat.le_of_not_lt h

/-- C9: on a sequence of length `n` the rollup generator returns exactly
`n + 1` tuples, the `k`-th being the first `k` elements in original order,
beginning with the empty tuple and ending with the full sequence; it is a
total function, and on the empty input it returns the single empty
tuple. -/
theorem get_rollup_combinations_initial_segments {α : Type} (x : List α) :
(get_rollup_combinations x).length = x.length + 1
∧ (∀ k : Nat, (get_rollup_combinations x)[k]? =
    if k < x.length + 1 then some (x.take k) else none)
∧ (get_rollup_combinations x).head? = some []
∧ (get_rollup_combinations x).getLast? = some x
∧ get_rollup_combinations ([] : List α) = [[]] := by
refine ⟨length_get_rollup_combinations x, getElem?_get_rollup_combinations x, ?_, ?_, rfl⟩
· rw [List.head?_eq_getElem?, getElem?_get_rollup_combinations]
  simp
· rw [List.getLast?_eq_getElem?, length_get_rollup_combinations,
    Nat.add_sub_cancel, getElem?_get_rollup_combinations]
  simp [List.take_length]

/-! ### C8: the cube generator -/

lemma combinations_length {α : Type} (k : Nat) (l : List α) :
(combinations k l).length = l.length.choose k := by
induction l generalizing k with
| nil =>
  cases k with
  | zero => rfl
  | succ k => rfl
| cons x xs ih =>
  cases k with
  | zero => rfl
  | succ k =>
    simp [combinations, ih, Nat.choose_succ_succ]

lemma combinations_eq_nil {α : Type} :
∀ (k : Nat) (l : List α), l.length < k → combinations k l = []
| 0, _, h => absurd h (Nat.not_lt_zero _)
| _ + 1, [], _ => rfl
| k + 1, x :: xs, h => by
  have h1 : xs.length < k := by simpa using Nat.lt_of_succ_lt_succ h
  have h2 : xs.length < k + 1 := Nat.lt_succ_of_lt h1
  simp [combinations, combinations_eq_nil k xs h1, combinations_eq_nil (k + 1) xs h2]

lemma combinations_self {α : Type} : ∀ (l : List α), combinations l.length l = [l]
| [] => rfl
| x :: xs => by
  simp [combinations, combinations_self xs,
    combinations_eq_nil (xs.length + 1) xs (Nat.lt_succ_self _)]

lemma mem_combinations {α : Type} :
∀ (k : Nat) (l c : List α), c ∈ combinations k l → c.Sublist l ∧ c.length = k
| 0, l, c, h => by
  simp only [combinations, List.mem_singleton] at h
  subst h
  exact ⟨List.nil_sublist l, rfl⟩
| _ + 1, [], c, h => by simp [combinations] at h
| k + 1, x :: xs, c, h => by
  simp only [combinations, List.mem_append, List.mem_map] at h
  rcases h with ⟨c', hc', rfl⟩ | h
  · obtain ⟨hs, hl⟩ := mem_combinations k xs c' hc'
    exact ⟨hs.cons₂ x, by simp [hl]⟩
  · obtain ⟨hs, hl⟩ := mem_combinations (k + 1) xs c h
    exact ⟨hs.cons x, hl⟩

lemma list_range_map_sum (f : Nat → Nat) (n : Nat) :
((List.range n).map f).sum = ∑ i ∈ Finset.range n, f i := by
induction n with
| zero => rfl
| succ n ih => rw [List.range_succ, Finset.sum_range_succ]; simp [ih]

/-- The cube generator has `2 ^ n` entries. -/
lemma length_get_cube_combinations {α : Type} (x : List α) :
(get_cube_combinations x).length = 2 ^ x.length := by
rw [get_cube_combinations, List.length_flatten, List.map_map]
have hcongr : (List.range (x.length + 1)).map (List.length ∘ fun k => combinations k x)
    = (List.range (x.length + 1)).map (fun k => x.length.choose k) := by
  apply List.map_congr_left
  intro k _
  simp [combinations_length]
rw [hcongr, list_range_map_sum, Nat.sum_range_choose]

lemma head?_get_cube_combinations {α : Type} (x : List α) :
(get_cube_combinations x).head? = some [] := by
rw [get_cube_combinations, List.range_succ_eq_map, List.map_cons, List.flatten_cons]
simp [combinations]

lemma getLast?_get_cube_combinations {α : Type} (x : List α) :
(get_cube_combinations x).getLast? = some x := by
rw [get_cube_combinations, List.range_succ, List.map_append, List.flatten_append]
simp [combinations_self]

/-- C8: on a sequence of length `n` the cube generator returns exactly `2 ^ n`
tuples, with the empty tuple first and the full sequence last, each a
subsequence of the input in original relative order, enumerated by
non-decreasing subset size; it is a total function, and on the empty
input it returns the single empty tuple. -/
theorem get_cube_combinations_power_set {α : Type} (x : List α) :
(get_cube_combinations x).length = 2 ^ x.length
∧ (get_cube_combinations x).head? = some []
∧ (get_cube_combinations x).getLast? = some x
∧ (∀ c ∈ get_cube_combinations x, c.Sublist x)
∧ ((get_cube_combinations x).map List.length).Sorted (· ≤ ·)
∧ get_cube_combinations ([] : List α) = [[]] := by
refine ⟨length_get_cube_combinations x, head?_get_cube_combinations x,
  getLast?_get_cube_combinations x, ?_, ?_, rfl⟩
· intro c hc
  rw [get_cube_combinations, List.mem_flatten] at hc
  obtain ⟨l, hl, hcl⟩ := hc
  rw [List.mem_map] at hl
  obtain ⟨k, _, rfl⟩ := hl
  exact (mem_combinations k x c hcl).1
· rw [get_cube_combinations, List.map_flatten, List.map_map, List.Sorted,
    List.pairwise_flatten]
  constructor
  · intro l hl
    rw [List.mem_map] at hl
    obtain ⟨k, _, rfl⟩ := hl
    apply List.pairwise_of_forall_mem_list
    intro a ha b hb
    rw [Function.comp_apply, List.mem_map] at ha hb
    obtain ⟨ca, hca, rfl⟩ := ha
    obtain ⟨cb, hcb, rfl⟩ := hb
    rw [(mem_combinations k x ca hca).2, (mem_combinations k x cb hcb).2]
  · rw [List.pairwise_map]
    refine (List.pairwise_lt_range (x.length + 1)).imp ?_
    intro i j hij a ha b hb
    rw [Function.comp_apply, List.mem_map] at ha hb
    obtain ⟨ca, hca, rfl⟩ := ha
    obtain ⟨cb, hcb, rfl⟩ := hb
    rw [(mem_combinations i x ca hca).2, (mem_combinations j x cb hcb).2]
    exact Nat.le_of_lt hij

/-- Witness for C8: a concrete member of the cube of `[1, 2, 3]` is an
order-preserving subsequence. -/
theorem get_cube_combinations_power_set_witness :
([1, 3] : List Nat).Sublist [1, 2, 3] :=
(get_cube_combinations_power_set [1, 2, 3]).2.2.2.1 [1, 3] (by decide)

/-! ### C7: the overlap validator -/

lemma card_union3_eq_iff {A B C : Finset String} :
(A ∪ B ∪ C).card = A.card + B.card + C.card ↔
  (Disjoint A B ∧ Disjoint A C ∧ Disjoint B C) := by
constructor
· intro h
  have hub : (A ∪ B).card ≤ A.card + B.card := Finset.card_union_le A B
  have huc : (A ∪ B ∪ C).card ≤ (A ∪ B).card + C.card := Finset.card_union_le _ C
  have hiab := Finset.card_union_add_card_inter A B
  have hiuc := Finset.card_union_add_card_inter (A ∪ B) C
  have dab : Disjoint A B := by
    rw [Finset.disjoint_iff_inter_eq_empty]
    exact Finset.card_eq_zero.mp (by omega)
  have dabc : Disjoint (A ∪ B) C := by
    rw [Finset.disjoint_iff_inter_eq_empty]
    exact Finset.card_eq_zero.mp (by omega)
  rw [Finset.disjoint_union_left] at dabc
  exact ⟨dab, dabc.1, dabc.2⟩
· rintro ⟨dab, dac, dbc⟩
  rw [Finset.card_union_of_disjoint (by rw [Finset.disjoint_union_left]; exact ⟨dac, dbc⟩),
    Finset.card_union_of_disjoint dab]

/-- C7: for column specifications of the three documented shapes (absent, a
single name, a list) the validator returns `true` exactly when the three
normalized column sets are pairwise disjoint; equivalently, the
cardinality identity it computes (sum of the three set sizes equals the
size of their union) holds exactly for pairwise-disjoint sets. -/
theorem check_no_interleaving_cols_iff_disjoint (a b c : ColsArg)
(_ha : a.isSpecShape = true) (_hb : b.isSpecShape = true) (_hc : c.isSpecShape = true) :
check_no_interleaving_cols a b c = true ↔
  (Disjoint ((cols_normalize a).elems).toFinset ((cols_normalize b).elems).toFinset
   ∧ Disjoint ((cols_normalize a).elems).toFinset ((cols_normalize c).elems).toFinset
   ∧ Disjoint ((cols_normalize b).elems).toFinset ((cols_normalize c).elems).toFinset) := by
unfold check_no_interleaving_cols
rw [beq_iff_eq]
exact card_union3_eq_iff

/-- Witness for C7: the validator at a disjoint concrete triple, one group
empty. -/
theorem check_no_interleaving_cols_iff_disjoint_witness :
check_no_interleaving_cols (.list ["a", "b"]) (.str "c") .pynone = true ↔
  (Disjoint ((cols_normalize (.list ["a", "b"])).elems).toFinset
     ((cols_normalize (.str "c")).elems).toFinset
   ∧ Disjoint ((cols_normalize (.list ["a", "b"])).elems).toFinset
     ((cols_normalize .pynone).elems).toFinset
   ∧ Disjoint ((cols_normalize (.str "c")).elems).toFinset
     ((cols_normalize .pynone).elems).toFinset) :=
check_no_interleaving_cols_iff_disjoint (.list ["a", "b"]) (.str "c") .pynone
  (by decide) (by decide) (by decide)

/-! ### C5: grouping-set enumeration and output cardinality -/

lemma length_rows_foldl_setCol (g : String → Val) (cs : List String) (d : DataFrame) :
(cs.foldl (fun acc c => setCol acc c (g c)) d).rows.length = d.rows.length := by
induction cs generalizing d with
| nil => rfl
| cons c cs ih => rw [List.foldl_cons, ih]; simp [setCol]

lemma length_rows_pieceFor (df : DataFrame) (all_groupby_cols : List String)
(aggm : List (String × String)) (env : AggEnv) (fill : FillSpec)
(result_cols gset : List String) :
(pieceFor df all_groupby_cols aggm env fill result_cols gset).rows.length
  = modelSetCount df gset := by
unfold pieceFor selectCols
simp only [List.length_map]
rw [length_rows_foldl_setCol]
by_cases h : gset = []
· simp [h, dfAgg, modelSetCount]
· simp only [h, if_neg, ite_false, modelSetCount, distinctKeyCount, groupbyAgg]
  simp [List.length_insertionSort]

lemma length_groupingSets (n c r : List String) :
(groupingSets n c r).length = 2 ^ c.length * (r.length + 1) := by
rw [groupingSets, List.length_flatten, List.map_map]
have hconst : (get_cube_combinations c).map
    (List.length ∘ fun cc => (get_rollup_combinations r).map (fun rc => n ++ cc ++ rc))
    = (get_cube_combinations c).map (fun _ => r.length + 1) := by
  apply List.map_congr_left
  intro a _
  simp [length_get_rollup_combinations]
rw [hconst]
simp [List.sum_replicate, length_get_cube_combinations, Nat.mul_comm]

lemma length_rows_concatRows (dfs : List DataFrame) :
(concatRows dfs).rows.length = (dfs.map (fun d => d.rows.length)).sum := by
simp [concatRows, List.length_flatten, List.map_map]
rfl

lemma length_rows_sortValues (d : DataFrame) (by_ : List String) :
(sortValues d by_).rows.length = d.rows.length := by
simp [sortValues, List.length_insertionSort]

/-- C5 (amended): every valid call evaluates exactly `2 ^ c * (r + 1)`
grouping sets, and the final row count is the sum, over the grouping
sets, of the number of distinct null-free combinations of that set's
columns in the input table (1 for the empty set); combinations containing
the null marker are dropped by the engine's group-by. -/
theorem cubinggroupby_row_count (df : DataFrame) (normal cube rollup : ColsArg)
(agg : AggSpec) (fill : FillSpec) (ai : Bool) (env : AggEnv) (vo : List String)
(vc : List String) (aggm : List (String × String))
(hchk : check_no_interleaving_cols (.list (cols_normalize normal).elems)
    (.list (cols_normalize cube).elems) (.list (cols_normalize rollup).elems) = true)
(hagg : resolveAgg agg vo = .ok (vc, aggm)) :
∃ out, cubinggroupbyAux df normal cube rollup agg fill ai env vo
    = (.ok out, 2 ^ (cols_normalize cube).elems.length * ((cols_normalize rollup).elems.length + 1))
  ∧ out.rows.length = ((groupingSets (cols_normalize normal).elems
      (cols_normalize cube).elems (cols_normalize rollup).elems).map (modelSetCount df)).sum := by
have haux : cubinggroupbyAux df normal cube rollup agg fill ai env vo
    = (.ok (runCubing df (cols_normalize normal).elems (cols_normalize cube).elems
        (cols_normalize rollup).elems vc aggm fill ai env).1,
      (runCubing df (cols_normalize normal).elems (cols_normalize cube).elems
        (cols_normalize rollup).elems vc aggm fill ai env).2) := by
  simp [cubinggroupbyAux, hchk, hagg]
refine ⟨(runCubing df (cols_normalize normal).elems (cols_normalize cube).elems
    (cols_normalize rollup).elems vc aggm fill ai env).1, ?_, ?_⟩
· rw [haux]
  have hcnt : (runCubing df (cols_normalize normal).elems (cols_normalize cube).elems
      (cols_normalize rollup).elems vc aggm fill ai env).2
      = 2 ^ (cols_normalize cube).elems.length * ((cols_normalize rollup).elems.length + 1) := by
    simp [runCubing, length_groupingSets]
  rw [hcnt]
· have hrows : ∀ (u : DataFrame) (A : List String),
      ((if ai then sortValues (setIndex u A) A else u)).rows.length = u.rows.length := by
    intro u A
    cases ai <;> simp [length_rows_sortValues, setIndex]
  simp only [runCubing, hrows, length_rows_sortValues, length_rows_concatRows, List.map_map]
  apply congrArg
  apply List.map_congr_left
  intro gs _
  simp [length_rows_pieceFor]

/-- Witness for C5's amended statement at a concrete valid call. -/
theorem cubinggroupby_row_count_witness :
check_no_interleaving_cols (.list (cols_normalize .pynone).elems)
    (.list (cols_normalize (.list ["a"])).elems) (.list (cols_normalize .pynone).elems) = true
∧ resolveAgg (.dict [("v", "sum")]) [] = .ok (["v"], [("v", "sum")])
∧ ∃ out, cubinggroupbyAux dfNull .pynone (.list ["a"]) .pynone (.dict [("v", "sum")]) .fnone
      false envSum []
    = (.ok out, 2 ^ (cols_normalize (.list ["a"])).elems.length
        * ((cols_normalize .pynone).elems.length + 1))
  ∧ out.rows.length = ((groupingSets (cols_normalize .pynone).elems
      (cols_normalize (.list ["a"])).elems (cols_normalize .pynone).elems).map
        (modelSetCount dfNull)).sum :=
⟨by decide, rfl,
 cubinggroupby_row_count dfNull .pynone (.list ["a"]) .pynone (.dict [("v", "sum")]) .fnone
   false envSum [] ["v"] [("v", "sum")] (by decide) rfl⟩

/-- C5 fails as stated: on a table with a null in a grouping column, the
valid call below (one aggregation per grouping set did run) returns
fewer rows than the sum over the grouping sets of the distinct
combinations present in the input table, because the engine's group-by
drops null keys. -/
theorem cubinggroupby_row_count_counterexample :
(cubinggroupbyAux dfNull .pynone (.list ["a"]) .pynone (.dict [("v", "sum")]) .fnone
    false envSum []).2 ≠ 0
∧ ((cubinggroupbyAux dfNull .pynone (.list ["a"]) .pynone (.dict [("v", "sum")]) .fnone
    false envSum []).1.toOption.map (fun o => o.rows.length))
  ≠ some (((groupingSets [] ["a"] []).map (claimedSetCount dfNull)).sum) := by decide

/-! ### C4: configuration errors are fatal and precede aggregation -/

/-- C4: when the three column roles interleave, or when the aggregation
argument is neither a single reduction name nor a mapping, the call
raises `ValueError` with no aggregation performed (the engine-call count
is `0`) and no result table. -/
theorem cubinggroupby_config_error (df : DataFrame) (normal cube rollup : ColsArg)
(agg : AggSpec) (fill : FillSpec) (ai : Bool) (env : AggEnv) (vo : List String)
(h : check_no_interleaving_cols (.list (cols_normalize normal).elems)
    (.list (cols_normalize cube).elems) (.list (cols_normalize rollup).elems) = false
  ∨ agg = .invalid) :
∃ msg, cubinggroupbyAux df normal cube rollup agg fill ai env vo = (.error msg, 0) := by
rcases h with h | h
· exact ⟨"the columns to be grouped by should be different", by simp [cubinggroupbyAux, h]⟩
· subst h
  by_cases hc : check_no_interleaving_cols (.list (cols_normalize normal).elems)
      (.list (cols_normalize cube).elems) (.list (cols_normalize rollup).elems) = true
  · exact ⟨"the agg parameter should be only str or dict",
      by simp [cubinggroupbyAux, hc, resolveAgg]⟩
  · exact ⟨"the columns to be grouped by should be different",
      by simp [cubinggroupbyAux, Bool.of_not_eq_true hc]⟩

/-! ### C2: value columns versus grouping columns -/

/-- Members of a valid `valueOrder` are table columns outside the grouping
columns. -/
lemma mem_validValueOrder {df : DataFrame} {all_groupby_cols vo : List String}
(hvo : ValidValueOrder df all_groupby_cols vo) {c : String} (hc : c ∈ vo) :
c ∈ df.cols ∧ c ∉ all_groupby_cols := by
have hm : c ∈ pySetDiff df.cols all_groupby_cols := hvo.mem_iff.mp hc
simp only [pySetDiff, List.mem_dedup, List.mem_filter, Bool.not_eq_true'] at hm
exact ⟨hm.1, by simpa using hm.2⟩

/-- C2 (amended): when `agg` is a single reduction name the resolved value
columns (the set difference of the table columns and the grouping
columns) are disjoint from the grouping columns; when `agg` is an
explicit mapping the resolved value columns are exactly the mapping's
keys, with no disjointness guarantee. -/
theorem resolveAgg_value_cols (df : DataFrame) (all_groupby_cols vo : List String)
(f : String) (m : List (String × String))
(hvo : ValidValueOrder df all_groupby_cols vo) :
(∀ p, resolveAgg (.name f) vo = .ok p → ∀ c ∈ p.1, c ∉ all_groupby_cols)
∧ (∀ q, resolveAgg (.dict m) vo = .ok q → q.1 = m.map Prod.fst) := by
constructor
· rintro p hp c hc
  simp only [resolveAgg, Except.ok.injEq] at hp
  rw [← hp] at hc
  exact (mem_validValueOrder hvo hc).2
· rintro q hq
  simp only [resolveAgg, Except.ok.injEq] at hq
  rw [← hq]

/-- Witness for C2's amended statement at a concrete call. -/
theorem resolveAgg_value_cols_witness :
(∀ p, resolveAgg (.name "sum") ["p", "q"] = .ok p → ∀ c ∈ p.1, c ∉ ["a"])
∧ (∀ q, resolveAgg (.dict [("p", "sum")]) ["p", "q"] = .ok q →
    q.1 = [("p", "sum")].map Prod.fst) :=
resolveAgg_value_cols dfPQ ["a"] ["p", "q"] "sum" [("p", "sum")] (by decide)

/-- C2 fails as stated: the call below passes validation and performs one
aggregation, yet its resolved value-column list (the keys of the `agg`
mapping) contains the grouping column `a`. -/
theorem resolveAgg_overlap_counterexample :
check_no_interleaving_cols (.list ["a"]) (.list []) (.list []) = true
∧ (cubinggroupbyAux dfPQ (.str "a") .pynone .pynone (.dict [("a", "sum")]) .fnone
    false envSum []).2 = 1
∧ (resolveAgg (.dict [("a", "sum")]) []).toOption = some (["a"], [("a", "sum")])
∧ "a" ∈ (cols_normalize (.str "a")).elems := by decide

/-! ### C3: determinism of the final table -/

/-- C3 fails as stated: with `agg` a single reduction name, two runs that
differ only in the iteration order of the value-column set difference
produce tables with different column orders. -/
theorem cubinggroupby_valueOrder_counterexample :
ValidValueOrder dfPQ ((cols_normalize (.str "a")).elems ++ (cols_normalize .pynone).elems
  ++ (cols_normalize .pynone).elems) ["p", "q"]
∧ ValidValueOrder dfPQ ((cols_normalize (.str "a")).elems ++ (cols_normalize .pynone).elems
  ++ (cols_normalize .pynone).elems) ["q", "p"]
∧ (cubinggroupby dfPQ (.str "a") .pynone .pynone (.name "sum") .fnone false envSum
    ["p", "q"]).toOption.map DataFrame.cols = some ["a", "p", "q"]
∧ (cubinggroupby dfPQ (.str "a") .pynone .pynone (.name "sum") .fnone false envSum
    ["q", "p"]).toOption.map DataFrame.cols = some ["a", "q", "p"] := by decide

/-- C3 (amended): the model is a function of its inputs together with the
iteration order of the value-column set difference, so two runs with the
same inputs and the same order agree; moreover, when `agg` is an explicit
mapping the result does not depend on that iteration order at all. -/
theorem cubinggroupby_dict_deterministic (df : DataFrame) (normal cube rollup : ColsArg)
(m : List (String × String)) (fill : FillSpec) (ai : Bool) (env : AggEnv)
(vo₁ vo₂ : List String) :
cubinggroupbyAux df normal cube rollup (.dict m) fill ai env vo₁
= cubinggroupbyAux df normal cube rollup (.dict m) fill ai env vo₂ := rfl

/-- Witness for C4: an overlapping specification and an invalid aggregation
argument both produce an error with zero aggregation calls. -/
theorem cubinggroupby_config_error_witness :
(∃ msg, cubinggroupbyAux dfPQ (.str "a") (.str "a") .pynone (.name "sum") .fnone
    false envSum [] = (.error msg, 0))
∧ (∃ msg, cubinggroupbyAux dfPQ (.str "a") .pynone .pynone .invalid .fnone
    false envSum [] = (.error msg, 0)) :=
⟨cubinggroupby_config_error dfPQ (.str "a") (.str "a") .pynone (.name "sum") .fnone
    false envSum [] (Or.inl (by decide)),
 cubinggroupby_config_error dfPQ (.str "a") .pynone .pynone .invalid .fnone
    false envSum [] (Or.inr rfl)⟩

/-! ### C1: the grand-total row -/

lemma lookup_map_overwrite (r : Row) (c : String) (v : Val) :
(r.map (fun p => if p.1 = c then (p.1, v) else p)).lookup c
  = (r.lookup c).map (fun _ => v) := by
induction r with
| nil => rfl
| cons p r ih =>
  obtain ⟨k, w⟩ := p
  by_cases hkc : k = c
  · subst hkc
    simp [List.lookup_cons]
  · have hck : (c == k) = false := beq_eq_false_iff_ne.mpr (fun he => hkc he.symm)
    simp [List.lookup_cons, hkc, hck, ih]

lemma lookup_map_overwrite_ne (r : Row) {c c' : String} (v : Val) (h : c' ≠ c) :
(r.map (fun p => if p.1 = c then (p.1, v) else p)).lookup c' = r.lookup c' := by
induction r with
| nil => rfl
| cons p r ih =>
  obtain ⟨k, w⟩ := p
  by_cases hkc : k = c
  · subst hkc
    have hb : (c' == k) = false := beq_eq_false_iff_ne.mpr h
    simp [List.lookup_cons, hb, ih]
  · simp only [List.map_cons, if_neg hkc, List.lookup_cons]
    cases hb : c' == k
    · simp [ih]
    · rfl

lemma lookup_append_of_none {r₁ : Row} (r₂ : Row) {c : String} (h : r₁.lookup c = none) :
(r₁ ++ r₂).lookup c = r₂.lookup c := by
induction r₁ with
| nil => rfl
| cons p r₁ ih =>
  obtain ⟨k, w⟩ := p
  rw [List.lookup_cons] at h
  rw [List.cons_append, List.lookup_cons]
  cases hb : c == k
  · rw [hb] at h
    exact ih h
  · rw [hb] at h
    cases h

lemma lookup_append_of_some {r₁ : Row} (r₂ : Row) {c : String} {w : Val}
(h : r₁.lookup c = some w) : (r₁ ++ r₂).lookup c = some w := by
induction r₁ with
| nil => cases h
| cons p r₁ ih =>
  obtain ⟨k, u⟩ := p
  rw [List.lookup_cons] at h
  rw [List.cons_append, List.lookup_cons]
  cases hb : c == k
  · rw [hb] at h
    exact ih h
  · rw [hb] at h
    exact h

lemma getVal_setValRow_self (r : Row) (c : String) (v : Val) :
getVal (setValRow r c v) c = v := by
unfold setValRow
by_cases h : (r.lookup c).isSome
· rw [if_pos h]
  show ((r.map (fun p => if p.1 = c then (p.1, v) else p)).lookup c).getD .null = v
  rw [lookup_map_overwrite]
  obtain ⟨w, hw⟩ := Option.isSome_iff_exists.mp h
  rw [hw]
  rfl
· rw [if_neg h]
  show ((r ++ [(c, v)]).lookup c).getD .null = v
  rw [lookup_append_of_none _ (Option.not_isSome_iff_eq_none.mp h)]
  simp [List.lookup_cons]

lemma getVal_setValRow_ne (r : Row) {c c' : String} (v : Val) (h : c' ≠ c) :
getVal (setValRow r c v) c' = getVal r c' := by
unfold setValRow
by_cases hs : (r.lookup c).isSome
· rw [if_pos hs]
  show ((r.map (fun p => if p.1 = c then (p.1, v) else p)).lookup c').getD .null = _
  rw [lookup_map_overwrite_ne r v h]
  rfl
· rw [if_neg hs]
  show ((r ++ [(c, v)]).lookup c').getD .null = (r.lookup c').getD .null
  by_cases hr : (r.lookup c').isSome
  · obtain ⟨w, hw⟩ := Option.isSome_iff_exists.mp hr
    rw [lookup_append_of_some _ hw, hw]
  · have hn := Option.not_isSome_iff_eq_none.mp hr
    rw [lookup_append_of_none _ hn, hn]
    have hb : (c' == c) = false := beq_eq_false_iff_ne.mpr h
    simp [List.lookup_cons, hb]

lemma getVal_foldl_setValRow_not_mem (g : String → Val) (cs : List String) (r : Row)
(c : String) (h : c ∉ cs) :
getVal (cs.foldl (fun r c => setValRow r c (g c)) r) c = getVal r c := by
induction cs generalizing r with
| nil => rfl
| cons c₀ cs ih =>
  rw [List.foldl_cons, ih _ (fun hm => h (List.mem_cons_of_mem _ hm))]
  exact getVal_setValRow_ne _ _ (fun he => h (he ▸ List.mem_cons_self _ _))

lemma getVal_foldl_setValRow_mem (g : String → Val) :
∀ (cs : List String) (c : String), cs.Nodup → c ∈ cs → ∀ (r : Row),
  getVal (cs.foldl (fun r c => setValRow r c (g c)) r) c = g c
| [], c, _, h, _ => absurd h (List.not_mem_nil c)
| c₀ :: cs, c, hnd, h, r => by
  rw [List.foldl_cons]
  rcases List.mem_cons.mp h with rfl | hc
  · rw [getVal_foldl_setValRow_not_mem g cs _ _ (List.nodup_cons.mp hnd).1]
    exact getVal_setValRow_self _ _ _
  · exact getVal_foldl_setValRow_mem g cs c (List.nodup_cons.mp hnd).2 hc _

lemma rows_foldl_setCol (g : String → Val) (cs : List String) (d : DataFrame) :
(cs.foldl (fun acc c => setCol acc c (g c)) d).rows
  = d.rows.map (fun r => cs.foldl (fun r c => setValRow r c (g c)) r) := by
induction cs generalizing d with
| nil => simp
| cons c cs ih =>
  rw [List.foldl_cons, ih]
  simp only [setCol, List.map_map, List.foldl_cons]
  rfl

lemma lookup_map_keyed (cs : List String) (g : String → Val) (c : String) :
(cs.map (fun c => (c, g c))).lookup c = if c ∈ cs then some (g c) else none := by
induction cs with
| nil => rfl
| cons c₀ cs ih =>
  by_cases h : c = c₀
  · subst h
    simp [List.lookup_cons]
  · have hb : (c == c₀) = false := beq_eq_false_iff_ne.mpr h
    simp [List.lookup_cons, hb, ih, h]

lemma getVal_projRow (cs : List String) (r : Row) (c : String) (h : c ∈ cs) :
getVal (cs.map (fun c => (c, getVal r c))) c = getVal r c := by
show ((cs.map (fun c => (c, getVal r c))).lookup c).getD .null = getVal r c
rw [lookup_map_keyed cs (fun c => getVal r c) c, if_pos h]
rfl

lemma lookup_map_pairs_nodup (aggm : List (String × String)) (h : String × String → Val)
(p : String × String) (hnd : (aggm.map Prod.fst).Nodup) (hp : p ∈ aggm) :
(aggm.map (fun q => (q.1, h q))).lookup p.1 = some (h p) := by
induction aggm with
| nil => cases hp
| cons q aggm ih =>
  rw [List.map_cons] at hnd
  rcases List.mem_cons.mp hp with rfl | hp'
  · simp [List.lookup_cons]
  · have hne : (p.1 == q.1) = false := by
      refine beq_eq_false_iff_ne.mpr (fun he => ?_)
      exact (List.nodup_cons.mp hnd).1 (he ▸ List.mem_map_of_mem Prod.fst hp')
    simp only [List.map_cons, List.lookup_cons, hne]
    exact ih (List.nodup_cons.mp hnd).2 hp'

lemma nil_mem_get_cube_combinations {α : Type} (x : List α) :
([] : List α) ∈ get_cube_combinations x := by
rw [get_cube_combinations, List.mem_flatten]
exact ⟨combinations 0 x, List.mem_map_of_mem _ (List.mem_range.mpr (Nat.succ_pos _)),
  by simp [combinations]⟩

lemma nil_mem_get_rollup_combinations {α : Type} (x : List α) :
([] : List α) ∈ get_rollup_combinations x := by
rw [get_rollup_combinations]
exact List.mem_map.mpr ⟨0, List.mem_range.mpr (Nat.succ_pos _), rfl⟩

lemma nil_mem_groupingSets (c r : List String) :
([] : List String) ∈ groupingSets [] c r := by
rw [groupingSets, List.mem_flatten]
refine ⟨(get_rollup_combinations r).map (fun rc => [] ++ [] ++ rc),
  List.mem_map_of_mem _ (nil_mem_get_cube_combinations c), ?_⟩
exact List.mem_map.mpr ⟨[], nil_mem_get_rollup_combinations r, rfl⟩

lemma pySetDiff_nil (a : List String) : pySetDiff a [] = a.dedup := by
simp [pySetDiff]

lemma mem_rows_sortValues {d : DataFrame} {by_ : List String} {r : Row} :
r ∈ (sortValues d by_).rows ↔ r ∈ d.rows :=
(List.perm_insertionSort _ _).mem_iff

lemma resolveAgg_ok_fst {agg : AggSpec} {vo vc : List String}
{aggm : List (String × String)} (h : resolveAgg agg vo = .ok (vc, aggm)) :
vc = aggm.map Prod.fst := by
cases agg with
| name f =>
  simp only [resolveAgg, Except.ok.injEq, Prod.mk.injEq] at h
  rw [← h.1, ← h.2, List.map_map]
  conv_rhs => rw [show (Prod.fst ∘ fun c : String => (c, f)) = id from rfl]
  rw [List.map_id]
| dict m =>
  simp only [resolveAgg, Except.ok.injEq, Prod.mk.injEq] at h
  rw [← h.1, ← h.2]
| invalid => simp [resolveAgg] at h

lemma pieceFor_nil_rows (df : DataFrame) (A : List String) (aggm : List (String × String))
(env : AggEnv) (fill : FillSpec) (rescols : List String) :
(pieceFor df A aggm env fill rescols []).rows
  = [rescols.map (fun c => (c, getVal ((pySetDiff A []).foldl
      (fun r c => setValRow r c (coerceFilled (get_grouping_filling c fill)))
      (aggm.map (fun p => (p.1, env p.2 (colVals df p.1))))) c))] := by
unfold pieceFor
rw [if_pos rfl]
simp [selectCols, rows_foldl_setCol, dfAgg]

/-- The grand-total row of `runCubing` with no plain columns: it carries each
grouping column's resolved fill and each value column's whole-table
reduction. -/
lemma runCubing_grand_total (df : DataFrame) (ccols rcols vc : List String)
(aggm : List (String × String)) (fill : FillSpec) (ai : Bool) (env : AggEnv)
(hnd : (aggm.map Prod.fst).Nodup)
(hvc : vc = aggm.map Prod.fst)
(hdisj : ∀ p ∈ aggm, p.1 ∉ [] ++ ccols ++ rcols) :
∃ row ∈ (runCubing df [] ccols rcols vc aggm fill ai env).1.rows,
  (∀ c ∈ ([] : List String) ++ ccols ++ rcols, getVal row c = get_grouping_filling c fill)
  ∧ (∀ p ∈ aggm, getVal row p.1 = env p.2 (colVals df p.1)) := by
refine ⟨(([] ++ ccols ++ rcols) ++ vc).map (fun c => (c, getVal
    ((pySetDiff ([] ++ ccols ++ rcols) []).foldl
      (fun r c => setValRow r c (coerceFilled (get_grouping_filling c fill)))
      (aggm.map (fun p : String × String => (p.1, env p.2 (colVals df p.1))))) c)),
  ?_, ?_, ?_⟩
· -- membership in the final rows
  have hpiece : pieceFor df ([] ++ ccols ++ rcols) aggm env fill
      (([] ++ ccols ++ rcols) ++ vc) [] ∈ (groupingSets [] ccols rcols).map
      (pieceFor df ([] ++ ccols ++ rcols) aggm env fill (([] ++ ccols ++ rcols) ++ vc)) :=
    List.mem_map_of_mem _ (nil_mem_groupingSets ccols rcols)
  have hrow : (([] ++ ccols ++ rcols) ++ vc).map (fun c => (c, getVal
      ((pySetDiff ([] ++ ccols ++ rcols) []).foldl
        (fun r c => setValRow r c (coerceFilled (get_grouping_filling c fill)))
        (aggm.map (fun p : String × String => (p.1, env p.2 (colVals df p.1))))) c))
      ∈ (concatRows ((groupingSets [] ccols rcols).map
        (pieceFor df ([] ++ ccols ++ rcols) aggm env fill
          (([] ++ ccols ++ rcols) ++ vc)))).rows := by
    rw [concatRows, List.mem_flatten]
    exact ⟨_, List.mem_map_of_mem DataFrame.rows hpiece,
      by rw [pieceFor_nil_rows]; exact List.mem_singleton.mpr rfl⟩
  simp only [runCubing]
  cases ai
  · simpa [mem_rows_sortValues] using hrow
  · simpa [mem_rows_sortValues, setIndex] using hrow
· -- folded grouping columns hold their fill
  intro c hc
  rw [getVal_projRow _ _ _ (List.mem_append_left _ hc)]
  rw [getVal_foldl_setValRow_mem (fun c => coerceFilled (get_grouping_filling c fill))
    (pySetDiff ([] ++ ccols ++ rcols) []) c
    (by rw [pySetDiff_nil]; exact List.nodup_dedup _)
    (by rw [pySetDiff_nil]; exact List.mem_dedup.mpr hc)
    (aggm.map (fun p : String × String => (p.1, env p.2 (colVals df p.1))))]
  rfl
· -- value columns hold the whole-table reduction
  intro p hp
  have hmemvc : p.1 ∈ vc := hvc ▸ List.mem_map_of_mem Prod.fst hp
  rw [getVal_projRow _ _ _ (List.mem_append_right _ hmemvc)]
  rw [getVal_foldl_setValRow_not_mem (fun c => coerceFilled (get_grouping_filling c fill))
    (pySetDiff ([] ++ ccols ++ rcols) [])
    (aggm.map (fun q : String × String => (q.1, env q.2 (colVals df q.1)))) p.1
    (by rw [pySetDiff_nil]; exact fun hm => hdisj p hp (List.mem_dedup.mp hm))]
  show ((aggm.map (fun q : String × String => (q.1, env q.2 (colVals df q.1)))).lookup
    p.1).getD .null = _
  rw [lookup_map_pairs_nodup aggm _ p hnd hp]
  rfl

/-- C1: for a call with no plain columns whose validation and aggregation
resolution succeed (and whose resolved value columns, the keys of the
aggregation mapping, do not overlap the grouping columns — otherwise the
engine itself fails), the final table contains a row holding every
grouping column's resolved fill sentinel whose value columns equal the
resolved reductions applied to the entire original table directly. -/
theorem cubinggroupby_grand_total (df : DataFrame) (normal cube rollup : ColsArg)
(agg : AggSpec) (fill : FillSpec) (ai : Bool) (env : AggEnv) (vo : List String)
(vc : List String) (aggm : List (String × String))
(hn : (cols_normalize normal).elems = [])
(hchk : check_no_interleaving_cols (.list (cols_normalize normal).elems)
    (.list (cols_normalize cube).elems) (.list (cols_normalize rollup).elems) = true)
(hagg : resolveAgg agg vo = .ok (vc, aggm))
(hnd : (aggm.map Prod.fst).Nodup)
(hdisj : ∀ p ∈ aggm, p.1 ∉ (cols_normalize normal).elems ++ (cols_normalize cube).elems
    ++ (cols_normalize rollup).elems) :
∃ out, (cubinggroupbyAux df normal cube rollup agg fill ai env vo).1 = .ok out
  ∧ ∃ row ∈ out.rows,
      (∀ c ∈ (cols_normalize normal).elems ++ (cols_normalize cube).elems
          ++ (cols_normalize rollup).elems,
        getVal row c = get_grouping_filling c fill)
      ∧ (∀ p ∈ aggm, getVal row p.1 = env p.2 (colVals df p.1)) := by
have haux : cubinggroupbyAux df normal cube rollup agg fill ai env vo
    = (.ok (runCubing df (cols_normalize normal).elems (cols_normalize cube).elems
        (cols_normalize rollup).elems vc aggm fill ai env).1,
      (runCubing df (cols_normalize normal).elems (cols_normalize cube).elems
        (cols_normalize rollup).elems vc aggm fill ai env).2) := by
  simp [cubinggroupbyAux, hchk, hagg]
refine ⟨(runCubing df (cols_normalize normal).elems (cols_normalize cube).elems
    (cols_normalize rollup).elems vc aggm fill ai env).1, by rw [haux], ?_⟩
rw [hn] at hdisj ⊢
exact runCubing_grand_total df (cols_normalize cube).elems (cols_normalize rollup).elems
  vc aggm fill ai env hnd (resolveAgg_ok_fst hagg) hdisj

/-- Witness for C1 at a concrete call: cube on `a`, summing `v`. -/
theorem cubinggroupby_grand_total_witness :
(cols_normalize .pynone).elems = []
∧ check_no_interleaving_cols (.list (cols_normalize .pynone).elems)
    (.list (cols_normalize (.list ["a"])).elems) (.list (cols_normalize .pynone).elems) = true
∧ resolveAgg (.dict [("v", "sum")]) [] = .ok (["v"], [("v", "sum")])
∧ (∃ out, (cubinggroupbyAux dfNull .pynone (.list ["a"]) .pynone (.dict [("v", "sum")])
      .fnone true envSum []).1 = .ok out
  ∧ ∃ row ∈ out.rows,
      (∀ c ∈ (cols_normalize .pynone).elems ++ (cols_normalize (.list ["a"])).elems
          ++ (cols_normalize .pynone).elems,
        getVal row c = get_grouping_filling c .fnone)
      ∧ (∀ p ∈ [("v", "sum")], getVal row p.1 = envSum p.2 (colVals dfNull p.1))) :=
⟨rfl, by decide, rfl,
 cubinggroupby_grand_total dfNull .pynone (.list ["a"]) .pynone (.dict [("v", "sum")])
   .fnone true envSum [] ["v"] [("v", "sum")] rfl (by decide) rfl (by decide) (by decide)⟩

end CubingInPandas
